import Mathlib

/-!
Shallow embedding of `pi_coffee.py` (CoffeeClock): a Raspberry Pi controller
that polls a remote HTTP service and actuates a coffee-maker relay, showing a
clock and a brew status on a 16x2 character LCD.

The Python module consists of module-level initialization (GPIO setup, LCD
splash, global variables) followed by an infinite `while True` loop.  We embed
the mutable globals as a state record `St`, each cycle of the loop as a
function `step` from the state, the wall-clock time sampled in the cycle, and
the network outcome, to a list of observable hardware events plus an optional
successor state (`none` models the uncaught exception that kills the process
when the network call fails).
-/

/-- GPIO output levels, mirroring `GPIO.HIGH` / `GPIO.LOW`. -/
inductive Level where
  | HIGH
  | LOW
deriving DecidableEq, Repr

/-- Abstraction of the LCD screen contents: either the startup screen (the
`"Not brewing"` default line plus the `"Karen 1.1 ♥"` splash message, which is
never reproduced by the loop because loop renders go through `update_LCD`),
or the two-line contents written by `update_LCD` (line 1 = clock, line 2 =
status). -/
inductive DispContent where
  | splash
  | rendered (line1 line2 : String)
deriving DecidableEq, Repr

/-- Observable side effects of one loop cycle: the HTTP GET issued on the
connection, a `GPIO.output(brewPin, level)` call, and an LCD re-render
(`lcd.clear()` followed by `lcd.message(line1 + "\n" + line2)`). -/
inductive Event where
  | request (path : String)
  | relay (level : Level)
  | render (line1 line2 : String)
deriving DecidableEq, Repr

/-- Raw LCD driver calls performed by the initialization code before the loop. -/
inductive LCDOp where
  | setCursor (col row : Nat)
  | message (text : String)
deriving DecidableEq, Repr

/-- The mutable globals of the module (`brewing`, `lcdTime`, `brewString`,
`oldMin`; `oldSec` is declared in the source but never used afterwards),
together with the last-commanded relay level and the current LCD contents,
which the invariant claims are about. -/
structure St where
  brewing : Bool
  lcdTime : String
  brewString : String
  oldMin : String
  oldSec : String := ""
  relay : Level
  disp : DispContent
deriving DecidableEq, Repr

/-- Wall-clock instant at minute granularity, the data `strftime` reads:
weekday, month, day-of-month (stored 0-based, displayed 1-based, so `mday = 4`
prints as `"05"`), hour and minute. -/
structure Time where
  wday : Fin 7
  mon : Fin 12
  mday : Fin 31
  hour : Fin 24
  minute : Fin 60
deriving DecidableEq, Repr

/-- Zero-padded two-digit decimal rendering, as produced by `strftime` for
`%d`, `%H` and `%M`. -/
def twoDigit (n : Nat) : String :=
  if n < 10 then "0" ++ toString n else toString n

/-- `strftime "%a"`: three-letter weekday abbreviation. -/
def wdayName (i : Fin 7) : String :=
  match i.val with
  | 0 => "Sun"
  | 1 => "Mon"
  | 2 => "Tue"
  | 3 => "Wed"
  | 4 => "Thu"
  | 5 => "Fri"
  | _ => "Sat"

/-- `strftime "%b"`: three-letter month abbreviation. -/
def monName (i : Fin 12) : String :=
  match i.val with
  | 0 => "Jan"
  | 1 => "Feb"
  | 2 => "Mar"
  | 3 => "Apr"
  | 4 => "May"
  | 5 => "Jun"
  | 6 => "Jul"
  | 7 => "Aug"
  | 8 => "Sep"
  | 9 => "Oct"
  | 10 => "Nov"
  | _ => "Dec"

/-- `strftime("%M")`: the minute-of-hour string compared against `oldMin`. -/
def fmtMin (t : Time) : String :=
  twoDigit t.minute.val

/-- Everything of `strftime("%a %b %d %H:%M")` before the minute field. -/
def fmtPre (t : Time) : String :=
  wdayName t.wday ++ " " ++ monName t.mon ++ " " ++ twoDigit (t.mday.val + 1)
    ++ " " ++ twoDigit t.hour.val ++ ":"

/-- `strftime("%a %b %d %H:%M")`: the clock text stored in `lcdTime`. -/
def fmtFull (t : Time) : String :=
  fmtPre t ++ fmtMin t

/-- `update_LCD()`: clears the LCD and writes `lcdTime + "\n" + brewString`.
Returns the updated state (new screen contents) and the render event. -/
def update_LCD (s : St) : St × Event :=
  ({ s with disp := DispContent.rendered s.lcdTime s.brewString },
   Event.render s.lcdTime s.brewString)

/-- `start_brewing()`: drives the relay HIGH, sets `brewing = True`, sets
`brewString = "Brewing"`, then calls `update_LCD()` — in that order. -/
def start_brewing (s : St) : St × List Event :=
  let s1 : St := { s with relay := Level.HIGH }
  let s2 : St := { s1 with brewing := true }
  let s3 : St := { s2 with brewString := "Brewing" }
  let u := update_LCD s3
  (u.1, [Event.relay Level.HIGH, u.2])

/-- `stop_brewing()`: drives the relay LOW, sets `brewing = False`, sets
`brewString = "Not brewing"`, then calls `update_LCD()`. -/
def stop_brewing (s : St) : St × List Event :=
  let s1 : St := { s with relay := Level.LOW }
  let s2 : St := { s1 with brewing := false }
  let s3 : St := { s2 with brewString := "Not brewing" }
  let u := update_LCD s3
  (u.1, [Event.relay Level.LOW, u.2])

/-- The polling half of the loop body: issue the GET selected by `brewing`,
read the response, and on the exact body `"1"` perform the transition.
`resp = none` models a network failure (timeout, connection error): the
source has no `try`/`except`, so the exception propagates and there is no
successor state. -/
def pollPart (s : St) (resp : Option String) : List Event × Option St :=
  if s.brewing = false then
    match resp with
    | none => ([Event.request "/should_brew"], none)
    | some data =>
      if data = "1" then
        let r := start_brewing s
        (Event.request "/should_brew" :: r.2, some r.1)
      else
        ([Event.request "/should_brew"], some s)
  else
    match resp with
    | none => ([Event.request "/should_stop"], none)
    | some data =>
      if data = "1" then
        let r := stop_brewing s
        (Event.request "/should_stop" :: r.2, some r.1)
      else
        ([Event.request "/should_stop"], some s)

/-- The minute-check half of the loop body: if `strftime("%M")` differs from
`oldMin`, recompute `lcdTime`, call `update_LCD()`, and reset `oldMin`. -/
def minutePart (s : St) (t : Time) : St × List Event :=
  if fmtMin t ≠ s.oldMin then
    let s1 : St := { s with lcdTime := fmtFull t }
    let u := update_LCD s1
    ({ u.1 with oldMin := fmtMin t }, [u.2])
  else
    (s, [])

/-- One full iteration of `while True`: poll (possibly transitioning), then
the minute check, then `sleep(1.0)` (no observable effect).  A network
failure aborts the cycle with no successor state. -/
def step (s : St) (t : Time) (resp : Option String) : List Event × Option St :=
  match pollPart s resp with
  | (es, none) => (es, none)
  | (es, some s1) =>
    let m := minutePart s1 t
    (es ++ m.2, some m.1)

/-- The LCD driver calls of the initialization code: position the cursor on
line 2 and write the default `"Not brewing"` status, then write the one
`"Karen 1.1 ♥"` splash message. -/
def startupOps : List LCDOp :=
  [LCDOp.setCursor 0 1, LCDOp.message "Not brewing", LCDOp.message "Karen 1.1 ♥"]

/-- Module-level initialization: `brewing = False`, GPIO setup, then
`GPIO.output(brewPin, GPIO.LOW)` which overwrites whatever level the relay
had before the process started (the source comment: it is "on" by default
sometimes), the LCD writes of `startupOps` leaving the startup screen, and
the string globals.  Returns the state the loop starts from together with
the relay events issued. -/
def startup (priorRelay : Level) : St × List Event :=
  let s0 : St := { brewing := false, lcdTime := "", brewString := "Not brewing",
                   oldMin := "", oldSec := "", relay := priorRelay,
                   disp := DispContent.splash }
  let s1 : St := { s0 with relay := Level.LOW }
  (s1, [Event.relay Level.LOW])

/-- States the process can be in at the top of the loop: the startup state
(from any prior relay level), closed under successful loop cycles. -/
inductive Reachable : St → Prop where
  | init (prior : Level) : Reachable (startup prior).1
  | step (s s' : St) (t : Time) (resp : Option String) :
      Reachable s → (step s t resp).2 = some s' → Reachable s'

/-- The endpoint the loop queries in a cycle, as selected by `brewing`. -/
def endpointFor (b : Bool) : String :=
  if b then "/should_stop" else "/should_brew"

/-- The status text the loop keeps for a brew state. -/
def statusText (b : Bool) : String :=
  if b then "Brewing" else "Not brewing"

/-- Paths of the HTTP requests among a cycle's events. -/
def requestsOf (es : List Event) : List String :=
  es.filterMap fun e =>
    match e with
    | Event.request p => some p
    | _ => none

/-- Relay levels commanded among a cycle's events. -/
def relaysOf (es : List Event) : List Level :=
  es.filterMap fun e =>
    match e with
    | Event.relay l => some l
    | _ => none

/-- LCD renders among a cycle's events. -/
def rendersOf (es : List Event) : List (String × String) :=
  es.filterMap fun e =>
    match e with
    | Event.render a b => some (a, b)
    | _ => none

/-- Every render in the event list writes contents different from what the
display shows at the moment of the write (starting from `d`). -/
def writesFresh : DispContent → List Event → Prop
  | _, [] => True
  | d, Event.request _ :: rest => writesFresh d rest
  | d, Event.relay _ :: rest => writesFresh d rest
  | d, Event.render a b :: rest =>
      DispContent.rendered a b ≠ d ∧ writesFresh (DispContent.rendered a b) rest

/-! ### Facts about the clock strings -/

lemma twoDigit_data_length : ∀ n : Fin 60, (twoDigit n.val).data.length = 2 := by
  decide

lemma fmtMin_data_length (t : Time) : (fmtMin t).data.length = 2 :=
  twoDigit_data_length t.minute

lemma fmtMin_ne_empty (t : Time) : fmtMin t ≠ "" := by
  intro h
  have h2 := fmtMin_data_length t
  rw [h] at h2
  simp at h2

/-- The minute field is recoverable from the full clock string: it is its
two-character suffix. -/
lemma fmtFull_min_eq (t1 t2 : Time) (h : fmtFull t1 = fmtFull t2) :
    fmtMin t1 = fmtMin t2 := by
  have hd : (fmtPre t1).data ++ (fmtMin t1).data
      = (fmtPre t2).data ++ (fmtMin t2).data := by
    have h2 := congrArg String.data h
    simpa [fmtFull, String.data_append] using h2
  have hl : (fmtMin t1).data.length = (fmtMin t2).data.length := by
    rw [fmtMin_data_length, fmtMin_data_length]
  exact String.ext (List.append_inj' hd hl).2

lemma fmtFull_ne_of_min_ne (t1 t2 : Time) (h : fmtMin t1 ≠ fmtMin t2) :
    fmtFull t1 ≠ fmtFull t2 :=
  fun he => h (fmtFull_min_eq t1 t2 he)

lemma fmtFull_ne_empty (t : Time) : fmtFull t ≠ "" := by
  intro h
  have hd := congrArg String.data h
  simp only [fmtFull, String.data_append] at hd
  have h2 := fmtMin_data_length t
  rw [List.append_eq_nil.mp hd |>.2] at h2
  simp at h2

/-! ### Unfolding lemmas for the loop pieces -/

lemma start_brewing_eq (s : St) :
    start_brewing s =
      ({ s with relay := Level.HIGH, brewing := true, brewString := "Brewing",
                disp := DispContent.rendered s.lcdTime "Brewing" },
       [Event.relay Level.HIGH, Event.render s.lcdTime "Brewing"]) := by
  simp [start_brewing, update_LCD]

lemma stop_brewing_eq (s : St) :
    stop_brewing s =
      ({ s with relay := Level.LOW, brewing := false, brewString := "Not brewing",
                disp := DispContent.rendered s.lcdTime "Not brewing" },
       [Event.relay Level.LOW, Event.render s.lcdTime "Not brewing"]) := by
  simp [stop_brewing, update_LCD]

lemma pollPart_none (s : St) :
    pollPart s none = ([Event.request (endpointFor s.brewing)], none) := by
  cases hb : s.brewing <;> simp [pollPart, endpointFor, hb]

lemma pollPart_neg (s : St) (data : String) (h : data ≠ "1") :
    pollPart s (some data) = ([Event.request (endpointFor s.brewing)], some s) := by
  cases hb : s.brewing <;> simp [pollPart, endpointFor, hb, h]

lemma pollPart_pos_idle (s : St) (h : s.brewing = false) :
    pollPart s (some "1") =
      (Event.request "/should_brew" :: (start_brewing s).2, some (start_brewing s).1) := by
  simp [pollPart, h]

lemma pollPart_pos_brewing (s : St) (h : s.brewing = true) :
    pollPart s (some "1") =
      (Event.request "/should_stop" :: (stop_brewing s).2, some (stop_brewing s).1) := by
  simp [pollPart, h]

lemma minutePart_eq_of_eq (s : St) (t : Time) (h : fmtMin t = s.oldMin) :
    minutePart s t = (s, []) := by
  simp [minutePart, h]

lemma minutePart_eq_of_ne (s : St) (t : Time) (h : fmtMin t ≠ s.oldMin) :
    minutePart s t =
      ({ s with lcdTime := fmtFull t, oldMin := fmtMin t,
                disp := DispContent.rendered (fmtFull t) s.brewString },
       [Event.render (fmtFull t) s.brewString]) := by
  simp [minutePart, update_LCD, h]

lemma step_none (s : St) (t : Time) :
    step s t none = ([Event.request (endpointFor s.brewing)], none) := by
  rw [step, pollPart_none]

lemma step_neg (s : St) (t : Time) (data : String) (h : data ≠ "1") :
    step s t (some data) =
      ([Event.request (endpointFor s.brewing)] ++ (minutePart s t).2,
       some (minutePart s t).1) := by
  rw [step, pollPart_neg s data h]

lemma step_pos_idle (s : St) (t : Time) (h : s.brewing = false) :
    step s t (some "1") =
      ((Event.request "/should_brew" :: (start_brewing s).2)
         ++ (minutePart (start_brewing s).1 t).2,
       some (minutePart (start_brewing s).1 t).1) := by
  rw [step, pollPart_pos_idle s h]

lemma step_pos_brewing (s : St) (t : Time) (h : s.brewing = true) :
    step s t (some "1") =
      ((Event.request "/should_stop" :: (stop_brewing s).2)
         ++ (minutePart (stop_brewing s).1 t).2,
       some (minutePart (stop_brewing s).1 t).1) := by
  rw [step, pollPart_pos_brewing s h]

/-! ### The state invariant maintained by the loop -/

/-- Invariant on the globals: the relay level is the pure image of `brewing`,
the status text is the pure image of `brewing`, the clock strings are either
still their initial empty values or the image of some instant, and the LCD
shows either the startup screen or exactly the current `(lcdTime, brewString)`
pair. -/
def LoopInv (s : St) : Prop :=
  s.relay = (if s.brewing then Level.HIGH else Level.LOW) ∧
  s.brewString = statusText s.brewing ∧
  ((s.lcdTime = "" ∧ s.oldMin = "") ∨
    ∃ t, s.lcdTime = fmtFull t ∧ s.oldMin = fmtMin t) ∧
  (s.disp = DispContent.splash ∨
    s.disp = DispContent.rendered s.lcdTime s.brewString)

lemma startup_inv (p : Level) : LoopInv (startup p).1 := by
  refine ⟨rfl, rfl, Or.inl ⟨rfl, rfl⟩, Or.inl rfl⟩

lemma loopInv_minutePart (s : St) (t : Time) (hI : LoopInv s) : LoopInv (minutePart s t).1 := by
  by_cases hm : fmtMin t = s.oldMin
  · rw [minutePart_eq_of_eq s t hm]
    exact hI
  · rw [minutePart_eq_of_ne s t hm]
    exact ⟨hI.1, hI.2.1, Or.inr ⟨t, rfl, rfl⟩, Or.inr rfl⟩

lemma loopInv_start_brewing (s : St) (hI : LoopInv s) : LoopInv (start_brewing s).1 := by
  rw [start_brewing_eq]
  exact ⟨by simp, by simp [statusText], hI.2.2.1, Or.inr rfl⟩

lemma loopInv_stop_brewing (s : St) (hI : LoopInv s) : LoopInv (stop_brewing s).1 := by
  rw [stop_brewing_eq]
  exact ⟨by simp, by simp [statusText], hI.2.2.1, Or.inr rfl⟩

lemma step_inv (s s' : St) (t : Time) (resp : Option String) (hI : LoopInv s)
    (h : (step s t resp).2 = some s') : LoopInv s' := by
  rcases resp with _ | data
  · rw [step_none] at h
    cases h
  · by_cases h1 : data = "1"
    · subst h1
      cases hb : s.brewing
      · rw [step_pos_idle s t hb] at h
        cases h
        exact loopInv_minutePart _ t (loopInv_start_brewing s hI)
      · rw [step_pos_brewing s t hb] at h
        cases h
        exact loopInv_minutePart _ t (loopInv_stop_brewing s hI)
    · rw [step_neg s t data h1] at h
      cases h
      exact loopInv_minutePart s t hI

lemma reachable_inv (s : St) (h : Reachable s) : LoopInv s := by
  induction h with
  | init p => exact startup_inv p
  | step s s' t resp _ hstep ih => exact step_inv s s' t resp ih hstep

/-! ### Observation lemmas for the event lists -/

lemma requestsOf_append (l1 l2 : List Event) :
    requestsOf (l1 ++ l2) = requestsOf l1 ++ requestsOf l2 := by
  simp [requestsOf]

lemma relaysOf_append (l1 l2 : List Event) :
    relaysOf (l1 ++ l2) = relaysOf l1 ++ relaysOf l2 := by
  simp [relaysOf]

lemma rendersOf_append (l1 l2 : List Event) :
    rendersOf (l1 ++ l2) = rendersOf l1 ++ rendersOf l2 := by
  simp [rendersOf]

lemma requestsOf_minutePart (s : St) (t : Time) : requestsOf (minutePart s t).2 = [] := by
  by_cases hm : fmtMin t = s.oldMin
  · rw [minutePart_eq_of_eq s t hm]
    rfl
  · rw [minutePart_eq_of_ne s t hm]
    rfl

lemma relaysOf_minutePart (s : St) (t : Time) : relaysOf (minutePart s t).2 = [] := by
  by_cases hm : fmtMin t = s.oldMin
  · rw [minutePart_eq_of_eq s t hm]
    rfl
  · rw [minutePart_eq_of_ne s t hm]
    rfl

lemma minutePart_fields (s : St) (t : Time) :
    (minutePart s t).1.brewing = s.brewing ∧ (minutePart s t).1.relay = s.relay ∧
    (minutePart s t).1.brewString = s.brewString := by
  by_cases hm : fmtMin t = s.oldMin
  · rw [minutePart_eq_of_eq s t hm]
    exact ⟨rfl, rfl, rfl⟩
  · rw [minutePart_eq_of_ne s t hm]
    exact ⟨rfl, rfl, rfl⟩

lemma minutePart_disp_of_ne (s : St) (t : Time) (hm : fmtMin t ≠ s.oldMin) :
    (minutePart s t).1.disp = DispContent.rendered (fmtFull t) s.brewString := by
  rw [minutePart_eq_of_ne s t hm]

lemma start_brewing_oldMin (s : St) : (start_brewing s).1.oldMin = s.oldMin := by
  rw [start_brewing_eq]

lemma stop_brewing_oldMin (s : St) : (stop_brewing s).1.oldMin = s.oldMin := by
  rw [stop_brewing_eq]

/-- The instant Sun Jan 01 00:00, used to instantiate witnesses. -/
def t0 : Time := ⟨0, 0, 0, 0, 0⟩

/-- The state after one successful negative-directive cycle from startup at
`t0` (used to instantiate witnesses). -/
def stW : St :=
  { brewing := false, lcdTime := "Sun Jan 01 00:00", brewString := "Not brewing",
    oldMin := "00", oldSec := "", relay := Level.LOW,
    disp := DispContent.rendered "Sun Jan 01 00:00" "Not brewing" }

/-- Sanity evaluation: one successful negative cycle from startup at `t0`
lands exactly in `stW`. -/
lemma step_startup_eval : (step (startup Level.LOW).1 t0 (some "0")).2 = some stW := by
  decide

lemma requestsOf_nil : requestsOf [] = [] := rfl

lemma requestsOf_cons_request (p : String) (l : List Event) :
    requestsOf (Event.request p :: l) = p :: requestsOf l := by
  simp [requestsOf]

lemma requestsOf_cons_relay (lv : Level) (l : List Event) :
    requestsOf (Event.relay lv :: l) = requestsOf l := by
  simp [requestsOf]

lemma requestsOf_cons_render (a b : String) (l : List Event) :
    requestsOf (Event.render a b :: l) = requestsOf l := by
  simp [requestsOf]

lemma relaysOf_nil : relaysOf [] = [] := rfl

lemma relaysOf_cons_request (p : String) (l : List Event) :
    relaysOf (Event.request p :: l) = relaysOf l := by
  simp [relaysOf]

lemma relaysOf_cons_relay (lv : Level) (l : List Event) :
    relaysOf (Event.relay lv :: l) = lv :: relaysOf l := by
  simp [relaysOf]

lemma relaysOf_cons_render (a b : String) (l : List Event) :
    relaysOf (Event.render a b :: l) = relaysOf l := by
  simp [relaysOf]

lemma rendersOf_nil : rendersOf [] = [] := rfl

lemma rendersOf_cons_request (p : String) (l : List Event) :
    rendersOf (Event.request p :: l) = rendersOf l := by
  simp [rendersOf]

lemma rendersOf_cons_relay (lv : Level) (l : List Event) :
    rendersOf (Event.relay lv :: l) = rendersOf l := by
  simp [rendersOf]

lemma rendersOf_cons_render (a b : String) (l : List Event) :
    rendersOf (Event.render a b :: l) = (a, b) :: rendersOf l := by
  simp [rendersOf]

lemma rendersOf_minutePart_eq (s : St) (t : Time) (hm : fmtMin t = s.oldMin) :
    rendersOf (minutePart s t).2 = [] := by
  rw [minutePart_eq_of_eq s t hm]
  rfl

/-! ### Claims -/

/-- C1: a response body is an affirmative directive (flips the brew state)
exactly when it is the literal string `"1"`; any other body (`"0"`, `""`,
`"true"`, `"11"`, `"1 "`, ...) leaves the brew state unchanged. -/
theorem directive_exact_match (s : St) (t : Time) (body : String) (s' : St)
    (h : (step s t (some body)).2 = some s') :
    (s'.brewing ≠ s.brewing) ↔ body = "1" := by
  by_cases h1 : body = "1"
  · subst h1
    refine iff_of_true ?_ rfl
    cases hb : s.brewing
    · rw [step_pos_idle s t hb] at h
      have h2 : (minutePart (start_brewing s).1 t).1 = s' := by simpa using h
      rw [← h2, (minutePart_fields _ t).1, start_brewing_eq]
      simp
    · rw [step_pos_brewing s t hb] at h
      have h2 : (minutePart (stop_brewing s).1 t).1 = s' := by simpa using h
      rw [← h2, (minutePart_fields _ t).1, stop_brewing_eq]
      simp
  · rw [step_neg s t body h1] at h
    have h2 : (minutePart s t).1 = s' := by simpa using h
    rw [← h2, (minutePart_fields s t).1]
    simp [h1]

/-- C1 witness: from the startup state, the body `"0"` leaves the brew state
unchanged. -/
theorem directive_exact_match_witness :
    (step (startup Level.LOW).1 t0 (some "0")).2 = some stW ∧
    ((stW.brewing ≠ (startup Level.LOW).1.brewing) ↔ ("0" : String) = "1") :=
  ⟨by decide, directive_exact_match (startup Level.LOW).1 t0 "0" stW (by decide)⟩

/-- C2: in every reachable state the last-commanded relay level is the pure
image of the brew state (`Brewing → HIGH`, `Idle → LOW`); no sequence of
polls can make them disagree. -/
theorem relay_matches_brew_state (s : St) (h : Reachable s) :
    s.relay = (if s.brewing then Level.HIGH else Level.LOW) :=
  (reachable_inv s h).1

/-- C2 witness: the startup state is reachable and satisfies the relay/brew
invariant. -/
theorem relay_matches_brew_state_witness :
    Reachable (startup Level.LOW).1 ∧
    (startup Level.LOW).1.relay
      = (if (startup Level.LOW).1.brewing then Level.HIGH else Level.LOW) :=
  ⟨Reachable.init Level.LOW,
   relay_matches_brew_state (startup Level.LOW).1 (Reachable.init Level.LOW)⟩

/-- C3: every cycle issues exactly one HTTP query, to `/should_stop` when
brewing and `/should_brew` when idle — never both. -/
theorem one_query_per_cycle (s : St) (t : Time) (resp : Option String) :
    requestsOf (step s t resp).1 = [endpointFor s.brewing] := by
  rcases resp with _ | data
  · rw [step_none]
    rfl
  · by_cases h1 : data = "1"
    · subst h1
      cases hb : s.brewing
      · rw [step_pos_idle s t hb, start_brewing_eq]
        simp only [List.cons_append, requestsOf_cons_request, requestsOf_cons_relay,
          requestsOf_cons_render, List.nil_append, requestsOf_append, requestsOf_minutePart,
          requestsOf_nil, endpointFor]
        rfl
      · rw [step_pos_brewing s t hb, stop_brewing_eq]
        simp only [List.cons_append, requestsOf_cons_request, requestsOf_cons_relay,
          requestsOf_cons_render, List.nil_append, requestsOf_append, requestsOf_minutePart,
          requestsOf_nil, endpointFor]
        rfl
    · rw [step_neg s t data h1]
      simp only [List.cons_append, List.nil_append, requestsOf_append,
        requestsOf_cons_request, requestsOf_nil, requestsOf_minutePart, endpointFor]

lemma start_brewing_clock (s : St) :
    (start_brewing s).1.lcdTime = s.lcdTime ∧ (start_brewing s).1.oldMin = s.oldMin := by
  rw [start_brewing_eq]
  exact ⟨rfl, rfl⟩

lemma stop_brewing_clock (s : St) :
    (stop_brewing s).1.lcdTime = s.lcdTime ∧ (stop_brewing s).1.oldMin = s.oldMin := by
  rw [stop_brewing_eq]
  exact ⟨rfl, rfl⟩

lemma minutePart_clock_eq (s : St) (t : Time) (h : fmtMin t = s.oldMin) :
    (minutePart s t).1.lcdTime = s.lcdTime ∧ (minutePart s t).1.oldMin = s.oldMin := by
  rw [minutePart_eq_of_eq s t h]
  exact ⟨rfl, rfl⟩

lemma start_brewing_fields (s : St) :
    (start_brewing s).1.brewing = true ∧ (start_brewing s).1.relay = Level.HIGH ∧
    (start_brewing s).1.brewString = "Brewing" ∧
    (start_brewing s).1.disp = DispContent.rendered s.lcdTime "Brewing" ∧
    (start_brewing s).2 = [Event.relay Level.HIGH, Event.render s.lcdTime "Brewing"] := by
  rw [start_brewing_eq]
  exact ⟨rfl, rfl, rfl, rfl, rfl⟩

lemma stop_brewing_fields (s : St) :
    (stop_brewing s).1.brewing = false ∧ (stop_brewing s).1.relay = Level.LOW ∧
    (stop_brewing s).1.brewString = "Not brewing" ∧
    (stop_brewing s).1.disp = DispContent.rendered s.lcdTime "Not brewing" ∧
    (stop_brewing s).2 = [Event.relay Level.LOW, Event.render s.lcdTime "Not brewing"] := by
  rw [stop_brewing_eq]
  exact ⟨rfl, rfl, rfl, rfl, rfl⟩

/-- C4: a cycle with a negative directive keeps the brew state and the relay
level and drives the relay not at all; in any cycle the relay is driven at
most once, and only when the brew state actually flips. -/
theorem negative_directive_identity (s : St) (t : Time) (resp : Option String) (s' : St)
    (h : (step s t resp).2 = some s') :
    (resp ≠ some "1" → s'.brewing = s.brewing ∧ s'.relay = s.relay ∧
        relaysOf (step s t resp).1 = []) ∧
    (relaysOf (step s t resp).1).length ≤ 1 ∧
    (relaysOf (step s t resp).1 ≠ [] → s'.brewing ≠ s.brewing) := by
  rcases resp with _ | data
  · rw [step_none] at h
    exact Option.noConfusion h
  · by_cases h1 : data = "1"
    · subst h1
      cases hb : s.brewing
      · rw [step_pos_idle s t hb, start_brewing_eq] at h ⊢
        obtain rfl : (minutePart _ t).1 = s' := by simpa using h
        refine ⟨fun hne => absurd rfl hne, ?_, ?_⟩
        · simp only [List.cons_append, List.nil_append, relaysOf_cons_request,
            relaysOf_cons_relay, relaysOf_cons_render, relaysOf_append,
            relaysOf_minutePart, relaysOf_nil, List.append_nil]
          simp
        · intro _
          rw [(minutePart_fields _ t).1]
          simp
      · rw [step_pos_brewing s t hb, stop_brewing_eq] at h ⊢
        obtain rfl : (minutePart _ t).1 = s' := by simpa using h
        refine ⟨fun hne => absurd rfl hne, ?_, ?_⟩
        · simp only [List.cons_append, List.nil_append, relaysOf_cons_request,
            relaysOf_cons_relay, relaysOf_cons_render, relaysOf_append,
            relaysOf_minutePart, relaysOf_nil, List.append_nil]
          simp
        · intro _
          rw [(minutePart_fields _ t).1]
          simp
    · rw [step_neg s t data h1] at h ⊢
      obtain rfl : (minutePart s t).1 = s' := by simpa using h
      refine ⟨fun _ => ⟨(minutePart_fields s t).1, (minutePart_fields s t).2.1, ?_⟩,
        ?_, ?_⟩
      · simp only [List.cons_append, List.nil_append, relaysOf_append,
          relaysOf_cons_request, relaysOf_nil, relaysOf_minutePart, List.append_nil]
      · simp only [List.cons_append, List.nil_append, relaysOf_append,
          relaysOf_cons_request, relaysOf_nil, relaysOf_minutePart, List.append_nil]
        simp
      · intro hne
        refine absurd ?_ hne
        simp only [List.cons_append, List.nil_append, relaysOf_append,
          relaysOf_cons_request, relaysOf_nil, relaysOf_minutePart, List.append_nil]

/-- C4 witness: from the startup state, the body `"0"` keeps state and relay
and drives the relay zero times. -/
theorem negative_directive_identity_witness :
    (step (startup Level.LOW).1 t0 (some "0")).2 = some stW ∧
    ((some "0" ≠ some "1" → stW.brewing = (startup Level.LOW).1.brewing ∧
        stW.relay = (startup Level.LOW).1.relay ∧
        relaysOf (step (startup Level.LOW).1 t0 (some "0")).1 = []) ∧
      (relaysOf (step (startup Level.LOW).1 t0 (some "0")).1).length ≤ 1 ∧
      (relaysOf (step (startup Level.LOW).1 t0 (some "0")).1 ≠ [] →
        stW.brewing ≠ (startup Level.LOW).1.brewing)) :=
  ⟨by decide, negative_directive_identity (startup Level.LOW).1 t0 (some "0") stW (by decide)⟩

/-- C5: from Idle, a `/should_brew` response of exactly `"1"` makes the state
Brewing, the relay HIGH, the status text `"Brewing"`, and re-renders the
display; the relay command (second event) precedes the render of the new
status text (third event). -/
theorem idle_affirmative_scenario (s : St) (t : Time) (h : s.brewing = false) :
    ∃ s', (step s t (some "1")).2 = some s' ∧
      s'.brewing = true ∧ s'.relay = Level.HIGH ∧ s'.brewString = "Brewing" ∧
      (step s t (some "1")).1.take 3 =
        [Event.request "/should_brew", Event.relay Level.HIGH,
         Event.render s.lcdTime "Brewing"] ∧
      ∃ l1, s'.disp = DispContent.rendered l1 "Brewing" := by
  rw [step_pos_idle s t h]
  have hf := start_brewing_fields s
  refine ⟨_, rfl, ?_, ?_, ?_, ?_, ?_⟩
  · rw [(minutePart_fields _ t).1, hf.1]
  · rw [(minutePart_fields _ t).2.1, hf.2.1]
  · rw [(minutePart_fields _ t).2.2, hf.2.2.1]
  · rw [hf.2.2.2.2]
    simp only [List.cons_append, List.nil_append]
    rfl
  · by_cases hm : fmtMin t = (start_brewing s).1.oldMin
    · refine ⟨s.lcdTime, ?_⟩
      rw [minutePart_eq_of_eq _ t hm, hf.2.2.2.1]
    · refine ⟨fmtFull t, ?_⟩
      rw [minutePart_disp_of_ne _ t hm, hf.2.2.1]

/-- C5 witness: the scenario instantiated at the startup state and `t0`. -/
theorem idle_affirmative_scenario_witness :
    (startup Level.LOW).1.brewing = false ∧
    (∃ s', (step (startup Level.LOW).1 t0 (some "1")).2 = some s' ∧
      s'.brewing = true ∧ s'.relay = Level.HIGH ∧ s'.brewString = "Brewing" ∧
      (step (startup Level.LOW).1 t0 (some "1")).1.take 3 =
        [Event.request "/should_brew", Event.relay Level.HIGH,
         Event.render (startup Level.LOW).1.lcdTime "Brewing"] ∧
      ∃ l1, s'.disp = DispContent.rendered l1 "Brewing") :=
  ⟨rfl, idle_affirmative_scenario (startup Level.LOW).1 t0 rfl⟩

/-- C6: when the current minute equals the last-recorded minute, the minute
check is a no-op — no clock recomputation, no events — and any full cycle at
such an instant leaves `lcdTime` and `oldMin` unchanged. -/
theorem clock_minute_law (s : St) (t : Time) (h : fmtMin t = s.oldMin) :
    minutePart s t = (s, []) ∧
    ∀ resp s', (step s t resp).2 = some s' →
      s'.lcdTime = s.lcdTime ∧ s'.oldMin = s.oldMin := by
  refine ⟨minutePart_eq_of_eq s t h, ?_⟩
  intro resp s' hstep
  rcases resp with _ | data
  · rw [step_none] at hstep
    exact Option.noConfusion hstep
  · by_cases h1 : data = "1"
    · subst h1
      cases hb : s.brewing
      · rw [step_pos_idle s t hb] at hstep
        obtain rfl : (minutePart (start_brewing s).1 t).1 = s' := by simpa using hstep
        have hc := start_brewing_clock s
        have h2 : fmtMin t = (start_brewing s).1.oldMin := by
          rw [hc.2]
          exact h
        have hm := minutePart_clock_eq _ t h2
        exact ⟨by rw [hm.1, hc.1], by rw [hm.2, hc.2]⟩
      · rw [step_pos_brewing s t hb] at hstep
        obtain rfl : (minutePart (stop_brewing s).1 t).1 = s' := by simpa using hstep
        have hc := stop_brewing_clock s
        have h2 : fmtMin t = (stop_brewing s).1.oldMin := by
          rw [hc.2]
          exact h
        have hm := minutePart_clock_eq _ t h2
        exact ⟨by rw [hm.1, hc.1], by rw [hm.2, hc.2]⟩
    · rw [step_neg s t data h1] at hstep
      obtain rfl : (minutePart s t).1 = s' := by simpa using hstep
      exact minutePart_clock_eq s t h

/-- C6 witness: at `stW` (whose `oldMin` is `"00"`) and the instant `t0`, the
minute check is a no-op and a cycle preserves the clock strings. -/
theorem clock_minute_law_witness :
    fmtMin t0 = stW.oldMin ∧
    (minutePart stW t0 = (stW, []) ∧
      ∀ resp s', (step stW t0 resp).2 = some s' →
        s'.lcdTime = stW.lcdTime ∧ s'.oldMin = stW.oldMin) :=
  ⟨by decide, clock_minute_law stW t0 (by decide)⟩

lemma writesFresh_nil (d : DispContent) : writesFresh d [] :=
  trivial

lemma writesFresh_cons_request (d : DispContent) (p : String) (l : List Event) :
    writesFresh d (Event.request p :: l) ↔ writesFresh d l :=
  Iff.rfl

lemma writesFresh_cons_relay (d : DispContent) (lv : Level) (l : List Event) :
    writesFresh d (Event.relay lv :: l) ↔ writesFresh d l :=
  Iff.rfl

lemma writesFresh_cons_render (d : DispContent) (a b : String) (l : List Event) :
    writesFresh d (Event.render a b :: l) ↔
      (DispContent.rendered a b ≠ d ∧ writesFresh (DispContent.rendered a b) l) :=
  Iff.rfl

/-- In an invariant state whose minute check will fire, the fresh clock text
differs from the stored one: either `lcdTime` is still the initial `""`, or
it came from an instant with a different minute. -/
lemma lcdTime_ne_fmtFull (s : St) (hI : LoopInv s) (t : Time) (hm : fmtMin t ≠ s.oldMin) :
    fmtFull t ≠ s.lcdTime := by
  rcases hI.2.2.1 with ⟨he, _⟩ | ⟨t1, he, ho⟩
  · rw [he]
    exact fmtFull_ne_empty t
  · rw [he]
    refine fmtFull_ne_of_min_ne t t1 ?_
    rw [← ho]
    exact hm

/-- C7: from any reachable state, every display write of a cycle differs from
the screen contents at the moment it happens (after the startup splash, no
write repeats the previously written pair); in particular a cycle with no
transition and an unchanged minute performs zero display writes. -/
theorem render_debounce_law (s : St) (h : Reachable s) (t : Time) (resp : Option String) :
    writesFresh s.disp (step s t resp).1 ∧
    (∀ s', (step s t resp).2 = some s' → s'.brewing = s.brewing →
      fmtMin t = s.oldMin → rendersOf (step s t resp).1 = []) := by
  have hI := reachable_inv s h
  rcases resp with _ | data
  · rw [step_none]
    exact ⟨trivial, fun s' hs => Option.noConfusion hs⟩
  · by_cases h1 : data = "1"
    · subst h1
      cases hb : s.brewing
      · rw [step_pos_idle s t hb]
        have hf := start_brewing_fields s
        constructor
        · rw [hf.2.2.2.2]
          simp only [List.cons_append, List.nil_append, writesFresh_cons_request,
            writesFresh_cons_relay, writesFresh_cons_render]
          constructor
          · rcases hI.2.2.2 with hd | hd
            · rw [hd]
              simp
            · rw [hd, hI.2.1, hb]
              simp [statusText]
          · by_cases hm : fmtMin t = (start_brewing s).1.oldMin
            · rw [minutePart_eq_of_eq _ t hm]
              trivial
            · rw [minutePart_eq_of_ne _ t hm, hf.2.2.1]
              simp only [writesFresh_cons_render]
              refine ⟨?_, trivial⟩
              have hm2 : fmtMin t ≠ s.oldMin := by
                rw [← (start_brewing_clock s).2]
                exact hm
              have hne := lcdTime_ne_fmtFull s hI t hm2
              simp [hne]
        · intro s' hs hbrew
          obtain rfl : (minutePart _ t).1 = s' := by simpa using hs
          rw [(minutePart_fields _ t).1, hf.1] at hbrew
          exact Bool.noConfusion hbrew
      · rw [step_pos_brewing s t hb]
        have hf := stop_brewing_fields s
        constructor
        · rw [hf.2.2.2.2]
          simp only [List.cons_append, List.nil_append, writesFresh_cons_request,
            writesFresh_cons_relay, writesFresh_cons_render]
          constructor
          · rcases hI.2.2.2 with hd | hd
            · rw [hd]
              simp
            · rw [hd, hI.2.1, hb]
              simp [statusText]
          · by_cases hm : fmtMin t = (stop_brewing s).1.oldMin
            · rw [minutePart_eq_of_eq _ t hm]
              trivial
            · rw [minutePart_eq_of_ne _ t hm, hf.2.2.1]
              simp only [writesFresh_cons_render]
              refine ⟨?_, trivial⟩
              have hm2 : fmtMin t ≠ s.oldMin := by
                rw [← (stop_brewing_clock s).2]
                exact hm
              have hne := lcdTime_ne_fmtFull s hI t hm2
              simp [hne]
        · intro s' hs hbrew
          obtain rfl : (minutePart _ t).1 = s' := by simpa using hs
          rw [(minutePart_fields _ t).1, hf.1] at hbrew
          exact Bool.noConfusion hbrew
    · rw [step_neg s t data h1]
      constructor
      · simp only [List.cons_append, List.nil_append, writesFresh_cons_request]
        by_cases hm : fmtMin t = s.oldMin
        · rw [minutePart_eq_of_eq s t hm]
          trivial
        · rw [minutePart_eq_of_ne s t hm]
          simp only [writesFresh_cons_render]
          refine ⟨?_, trivial⟩
          rcases hI.2.2.2 with hd | hd
          · rw [hd]
            simp
          · rw [hd]
            have hne := lcdTime_ne_fmtFull s hI t hm
            simp [hne]
      · intro s' hs hbrew hmin
        simp only [List.cons_append, List.nil_append, rendersOf_append,
          rendersOf_cons_request, rendersOf_nil, rendersOf_minutePart_eq s t hmin,
          List.append_nil]

/-- C7 witness: the debounce law instantiated at the (reachable) startup state
with a negative directive at `t0`. -/
theorem render_debounce_law_witness :
    Reachable (startup Level.LOW).1 ∧
    (writesFresh (startup Level.LOW).1.disp (step (startup Level.LOW).1 t0 (some "0")).1 ∧
      (∀ s', (step (startup Level.LOW).1 t0 (some "0")).2 = some s' →
        s'.brewing = (startup Level.LOW).1.brewing →
        fmtMin t0 = (startup Level.LOW).1.oldMin →
        rendersOf (step (startup Level.LOW).1 t0 (some "0")).1 = [])) :=
  ⟨Reachable.init Level.LOW,
   render_debounce_law (startup Level.LOW).1 (Reachable.init Level.LOW) t0 (some "0")⟩

/-- C8: the code has no handler for a network failure — from the Idle startup
state, a failing network call (`resp = none`) leaves no successor state: the
exception is uncaught and the process dies instead of continuing as the claim
requires. -/
theorem network_failure_crashes :
    (startup Level.LOW).1.brewing = false ∧
    (step (startup Level.LOW).1 t0 none).2 = none :=
  ⟨rfl, rfl⟩

/-- C9: exactly one splash message is pushed before the loop begins, and any
successful first cycle overwrites the startup screen with a regular render
(the first cycle always re-renders because `oldMin` starts as `""` and no
minute string is empty). -/
theorem splash_once_then_overwritten (prior : Level) (t : Time) (resp : Option String)
    (s' : St) (h : (step (startup prior).1 t resp).2 = some s') :
    startupOps.count (LCDOp.message "Karen 1.1 ♥") = 1 ∧
    s'.disp ≠ DispContent.splash ∧ ∃ a b, s'.disp = DispContent.rendered a b := by
  rcases resp with _ | data
  · rw [step_none] at h
    exact Option.noConfusion h
  · by_cases h1 : data = "1"
    · subst h1
      rw [step_pos_idle _ t rfl] at h
      obtain rfl : (minutePart (start_brewing (startup prior).1).1 t).1 = s' := by
        simpa using h
      have hm : fmtMin t ≠ (start_brewing (startup prior).1).1.oldMin := by
        rw [(start_brewing_clock _).2]
        exact fmtMin_ne_empty t
      rw [minutePart_disp_of_ne _ t hm]
      exact ⟨by decide, by simp, _, _, rfl⟩
    · rw [step_neg _ t data h1] at h
      obtain rfl : (minutePart (startup prior).1 t).1 = s' := by simpa using h
      have hm : fmtMin t ≠ (startup prior).1.oldMin :=
        fmtMin_ne_empty t
      rw [minutePart_disp_of_ne _ t hm]
      exact ⟨by decide, by simp, _, _, rfl⟩

/-- C9 witness: instantiated at `prior = LOW`, instant `t0` and body `"0"`. -/
theorem splash_once_then_overwritten_witness :
    (step (startup Level.LOW).1 t0 (some "0")).2 = some stW ∧
    (startupOps.count (LCDOp.message "Karen 1.1 ♥") = 1 ∧
      stW.disp ≠ DispContent.splash ∧ ∃ a b, stW.disp = DispContent.rendered a b) :=
  ⟨by decide, splash_once_then_overwritten Level.LOW t0 (some "0") stW (by decide)⟩

/-- C10: whatever level the relay hardware had before the process started,
initialization sets the brew state to not-brewing and explicitly drives the
relay LOW, so the relay/brew-state invariant holds before the first cycle. -/
theorem startup_forces_relay_low (prior : Level) :
    (startup prior).1.brewing = false ∧
    (startup prior).1.relay = Level.LOW ∧
    Event.relay Level.LOW ∈ (startup prior).2 ∧
    (startup prior).1.relay
      = (if (startup prior).1.brewing then Level.HIGH else Level.LOW) := by
  refine ⟨rfl, rfl, ?_, rfl⟩
  simp [startup]
